import Mathlib

/-!
Verification of the paper acquisition pipeline of the repository
(src/pages/search_engine.py, src/pages/3_Sorting_and_Filtering.py,
src/pages/4_PDF_Downloader.py).

The Python sources are shallowly embedded: dictionaries become records,
mutable loop state becomes explicit state threading, network calls become
parameters describing the responses a run would observe, exceptions become
Except or Option values, and Python integers and bytes become Int and
List Nat.  Definitions follow the source line by line; spec side
definitions used for comparison are marked as such.
-/

namespace AgriPipeline

/-! ### MD5 (model of hashlib.md5 used by generate_paper_id)

The page 3 function generate_paper_id hashes the UTF-8 encoded title with
hashlib.md5 and takes the lowercase hex digest.  The algorithm below is
MD5 per RFC 1321, written over Nat with explicit reduction mod 2 ^ 32.
Bitwise operations are implemented with division and remainder so that
every step is plain kernel arithmetic. -/

/-- Extract bit k of a natural number. -/
def nbit (a k : Nat) : Nat := a / 2 ^ k % 2

/-- Combine two 32-bit words bitwise, using f on each pair of bits. -/
def bitZip32 (f : Nat → Nat → Nat) (a b : Nat) : Nat :=
  (List.range 32).foldl (fun acc k => acc + f (nbit a k) (nbit b k) * 2 ^ k) 0

/-- Bitwise exclusive or on 32-bit words. -/
def xor32 (a b : Nat) : Nat := bitZip32 (fun x y => (x + y) % 2) a b

/-- Bitwise and on 32-bit words. -/
def and32 (a b : Nat) : Nat := bitZip32 (fun x y => x * y) a b

/-- Bitwise or on 32-bit words. -/
def or32 (a b : Nat) : Nat := bitZip32 (fun x y => x + y - x * y) a b

/-- Bitwise complement on 32-bit words. -/
def not32 (a : Nat) : Nat := bitZip32 (fun x _ => 1 - x) a 0

/-- Addition mod 2 ^ 32. -/
def add32 (a b : Nat) : Nat := (a + b) % 2 ^ 32

/-- Left rotation of a 32-bit word by s places. -/
def rotl32 (a s : Nat) : Nat := (a * 2 ^ s + a / 2 ^ (32 - s)) % 2 ^ 32

/-- The four MD5 round functions. -/
def md5F (b c d : Nat) : Nat := or32 (and32 b c) (and32 (not32 b) d)

def md5G (b c d : Nat) : Nat := or32 (and32 b d) (and32 c (not32 d))

def md5H (b c d : Nat) : Nat := xor32 b (xor32 c d)

def md5I (b c d : Nat) : Nat := xor32 c (or32 b (not32 d))

/-- MD5 sine-derived constant table (RFC 1321 T table). -/
def md5K : List Nat := [
  3614090360, 3905402710, 606105819, 3250441966, 4118548399, 1200080426, 2821735955, 4249261313,
  1770035416, 2336552879, 4294925233, 2304563134, 1804603682, 4254626195, 2792965006, 1236535329,
  4129170786, 3225465664, 643717713, 3921069994, 3593408605, 38016083, 3634488961, 3889429448,
  568446438, 3275163606, 4107603335, 1163531501, 2850285829, 4243563512, 1735328473, 2368359562,
  4294588738, 2272392833, 1839030562, 4259657740, 2763975236, 1272893353, 4139469664, 3200236656,
  681279174, 3936430074, 3572445317, 76029189, 3654602809, 3873151461, 530742520, 3299628645,
  4096336452, 1126891415, 2878612391, 4237533241, 1700485571, 2399980690, 4293915773, 2240044497,
  1873313359, 4264355552, 2734768916, 1309151649, 4149444226, 3174756917, 718787259, 3951481745]

/-- MD5 per-step left rotation amounts. -/
def md5S : List Nat := [
  7, 12, 17, 22, 7, 12, 17, 22, 7, 12, 17, 22, 7, 12, 17, 22,
  5, 9, 14, 20, 5, 9, 14, 20, 5, 9, 14, 20, 5, 9, 14, 20,
  4, 11, 16, 23, 4, 11, 16, 23, 4, 11, 16, 23, 4, 11, 16, 23,
  6, 10, 15, 21, 6, 10, 15, 21, 6, 10, 15, 21, 6, 10, 15, 21]

/-- Mixing function and message word index for step i of the compression. -/
def md5Mix (i b c d : Nat) : Nat :=
  if i < 16 then md5F b c d
  else if i < 32 then md5G b c d
  else if i < 48 then md5H b c d
  else md5I b c d

/-- Message word index used at step i. -/
def md5Idx (i : Nat) : Nat :=
  if i < 16 then i
  else if i < 32 then (5 * i + 1) % 16
  else if i < 48 then (3 * i + 5) % 16
  else (7 * i) % 16

/-- Little-endian 32-bit word starting at byte offset i of the message. -/
def wordAt (bytes : List Nat) (i : Nat) : Nat :=
  bytes.getD i 0 + 256 * bytes.getD (i + 1) 0 +
    65536 * bytes.getD (i + 2) 0 + 16777216 * bytes.getD (i + 3) 0

/-- One MD5 compression step. -/
def md5Step (bytes : List Nat) (blockOff : Nat) (st : Nat × Nat × Nat × Nat) (i : Nat) :
    Nat × Nat × Nat × Nat :=
  let (a, b, c, d) := st
  let f := add32 (add32 (md5Mix i b c d) a)
    (add32 (md5K.getD i 0) (wordAt bytes (blockOff + 4 * md5Idx i)))
  (d, add32 b (rotl32 f (md5S.getD i 0)), b, c)

/-- MD5 compression of one 64-byte block, folded into the running state. -/
def md5Block (bytes : List Nat) (st : Nat × Nat × Nat × Nat) (blk : Nat) :
    Nat × Nat × Nat × Nat :=
  let (a0, b0, c0, d0) := st
  let (a, b, c, d) := (List.range 64).foldl (md5Step bytes (64 * blk)) (a0, b0, c0, d0)
  (add32 a0 a, add32 b0 b, add32 c0 c, add32 d0 d)

/-- MD5 padding: append 0x80, zeros to 56 mod 64, then the bit length
little-endian in 8 bytes. -/
def md5Pad (msg : List Nat) : List Nat :=
  msg ++ [128] ++ List.replicate ((119 - msg.length % 64) % 64) 0 ++
    (List.range 8).map (fun k => 8 * msg.length / 2 ^ (8 * k) % 256)

/-- The 16 digest bytes of MD5 of the message. -/
def md5Bytes (msg : List Nat) : List Nat :=
  let padded := md5Pad msg
  let (a, b, c, d) := (List.range (padded.length / 64)).foldl (md5Block padded)
    (1732584193, 4023233417, 2562383102, 271733878)
  [a, b, c, d].flatMap (fun w => (List.range 4).map (fun k => w / 2 ^ (8 * k) % 256))

/-- Lowercase hex digit for a nibble. -/
def hexDigit (n : Nat) : Char :=
  if n < 10 then Char.ofNat (48 + n) else Char.ofNat (87 + n)

/-- Lowercase hex string of a list of bytes, high nibble first. -/
def hexOfBytes (bs : List Nat) : List Char :=
  bs.flatMap (fun b => [hexDigit (b / 16), hexDigit (b % 16)])

/-- UTF-8 encoding of a unicode scalar value, as Python str.encode produces. -/
def utf8Bytes (u : Nat) : List Nat :=
  if u < 128 then [u]
  else if u < 2048 then [192 + u / 64, 128 + u % 64]
  else if u < 65536 then [224 + u / 4096, 128 + u / 64 % 64, 128 + u % 64]
  else [240 + u / 262144, 128 + u / 4096 % 64, 128 + u / 64 % 64, 128 + u % 64]

/-- UTF-8 encoding of a string. -/
def utf8Encode (s : String) : List Nat := s.data.flatMap (fun c => utf8Bytes c.toNat)

/-- The md5 hex digest of a string, exactly hashlib.md5 on the UTF-8 bytes. -/
def md5Hex (s : String) : String := ⟨hexOfBytes (md5Bytes (utf8Encode s))⟩

/-! ### Data model

A search result in search_engine.py is a dict with keys title, link,
snippet, source, and (set by the lane loops) type.  A missing snippet is
None, modelled by Option; a missing type key is modelled by none.  The
title of a result with a None title is modelled as the empty string,
matching Python truthiness in the one place the code tests it. -/

structure Paper where
  title : String
  link : String
  snippet : Option String
  source : String
  type : Option String
deriving Repr, DecidableEq

/-- A paper after stage 2 of 3_Sorting_and_Filtering.py: the same dict with
relevance_score, category and id added. -/
structure ScoredPaper where
  title : String
  link : String
  snippet : Option String
  source : String
  type : Option String
  relevance_score : Int
  category : String
  id : String
deriving Repr, DecidableEq

/-! ### Search engine lanes (src/pages/search_engine.py, lines 118 to 169)

The three lane loops share the mutable list all_results and the set seen.
Each loop walks the candidates returned by the adapters for its queries,
keeps a candidate whose lowered title is unseen, tags it with the lane
type and records the lowered title.  The research and review lanes also
require the title to be truthy; the thesis lane does not. -/

/-- Python str.lower, character by character (the titles the pipeline
handles are ASCII, where Char.toLower agrees with Python). -/
def pyLower (t : String) : String := ⟨t.data.map Char.toLower⟩

/-- The mutable state of the search run: all_results and seen. -/
structure SearchState where
  all_results : List Paper
  seen : List String
deriving Repr, DecidableEq

/-- One iteration of a lane loop body over candidate p.  checkTitle is
true for the research and review lanes, which test the truthiness of the
title before the seen check. -/
def laneStep (checkTitle : Bool) (tag : String) (st : SearchState) (p : Paper) : SearchState :=
  if checkTitle && p.title == "" then st
  else if st.seen.contains (pyLower p.title) then st
  else { all_results := st.all_results ++ [{ p with type := some tag }],
         seen := pyLower p.title :: st.seen }

/-- A whole lane loop over its concatenated adapter results. -/
def runLane (checkTitle : Bool) (tag : String) (st : SearchState) (ps : List Paper) : SearchState :=
  ps.foldl (laneStep checkTitle tag) st

/-- The module level search flow: research lane, then review lane, then
thesis lane, sharing all_results and seen; the final all_results is what
is saved to session state. -/
def multiPathSearch (research review thesis : List Paper) : List Paper :=
  (runLane false "Thesis"
    (runLane true "Review"
      (runLane true "Research" ⟨[], []⟩ research) review) thesis).all_results

/-! ### Stage 1 (src/pages/3_Sorting_and_Filtering.py, llm_filter_stage_1)

The parsed model response is a list of Python ints.  The code runs
sorted(list(set(indices))) and then indexes back into the pool keeping
only indices i with i < len(papers); a negative index wraps around as in
Python, and an index below -len(papers) raises IndexError, which nothing
in the page catches, so the embedded function returns none there. -/

/-- Insert an Int into an ascending duplicate-free list, keeping it
ascending and duplicate-free.  Folding this gives sorted(list(set(xs))). -/
def insertSortedNoDup (x : Int) : List Int → List Int
  | [] => [x]
  | y :: ys =>
    if x < y then x :: y :: ys
    else if x = y then y :: ys
    else y :: insertSortedNoDup x ys

/-- Python sorted(list(set(xs))): the distinct values in ascending order. -/
def sortedSet (xs : List Int) : List Int := xs.foldl (fun acc x => insertSortedNoDup x acc) []

/-- Python list indexing papers[i] with possibly negative i; none models an
uncaught IndexError. -/
def pyGet (l : List Paper) (i : Int) : Option Paper :=
  if 0 ≤ i then l.get? i.toNat
  else if -(l.length : Int) ≤ i then l.get? ((l.length : Int) + i).toNat
  else none

/-- The list comprehension indexing back into the pool: a single failing
lookup aborts the whole comprehension, as the uncaught IndexError would. -/
def mapIndex (papers : List Paper) : List Int → Option (List Paper)
  | [] => some []
  | i :: is =>
    match pyGet papers i, mapIndex papers is with
    | some p, some ps => some (p :: ps)
    | _, _ => none

/-- llm_filter_stage_1 after response parsing: dedupe and sort the indices,
keep those below the pool length, and index back into the pool.  A none
result models the uncaught IndexError of a too negative index. -/
def llm_filter_stage_1 (papers : List Paper) (indices : List Int) : Option (List Paper) :=
  mapIndex papers ((sortedSet indices).filter (fun i => i < (papers.length : Int)))

/-! ### Stage 2 (src/pages/3_Sorting_and_Filtering.py, llm_score_stage_2)

Each shortlisted paper gets one model call whose parsed JSON carries an
optional score and an optional category; a raised or unparseable call is
modelled by Except.error and makes the loop skip the paper.  The loop
index i comes from enumerate over the shortlist. -/

/-- The parsed JSON of one stage 2 model response. -/
structure ScoreResp where
  score : Option Int
  category : Option String
deriving Repr, DecidableEq

/-- generate_paper_id of the page: md5 hex digest of the UTF-8 title. -/
def generate_paper_id (title : String) : String := md5Hex title

/-- The id string assigned at stage 2, from the format string i_hash. -/
def stage2Id (i : Nat) (title : String) : String :=
  Nat.repr i ++ "_" ++ generate_paper_id title

/-- The body of one iteration of the stage 2 loop: none when the call
raised (the paper is skipped), otherwise the scored paper.  The category
keeps an existing Thesis or Review type tag and otherwise takes the model
category, defaulting to Research. -/
def scoreOne (i : Nat) (p : Paper) (r : Except Unit ScoreResp) : Option ScoredPaper :=
  match r with
  | .error _ => none
  | .ok d =>
    some { title := p.title, link := p.link, snippet := p.snippet, source := p.source,
           type := p.type,
           relevance_score := d.score.getD 0,
           category :=
             match p.type with
             | some t => if t = "Thesis" ∨ t = "Review" then t else d.category.getD "Research"
             | none => d.category.getD "Research",
           id := stage2Id i p.title }

/-- llm_score_stage_2: enumerate the shortlist, pair each paper with the
response its model call produced, and keep the successfully scored ones. -/
def llm_score_stage_2 (papers : List Paper) (rs : List (Except Unit ScoreResp)) :
    List ScoredPaper :=
  (papers.zip rs).enum.filterMap (fun e => scoreOne e.1 e.2.1 e.2.2)

/-! ### Display and selection (src/pages/3_Sorting_and_Filtering.py,
lines 124 to 178)

The page walks the fixed categories list in order, filters the scored
pool to the category, sorts with Python sorted by relevance_score with
reverse true (a stable sort), removes already selected papers, and shows
the first limit remaining candidates. -/

/-- Insert into a list already sorted descending by relevance_score; an
element is placed before the first strictly or equally scored suffix
element it dominates or matches, so equal scores keep their original
relative order, exactly as the stable Python sorted with reverse true. -/
def insertDesc (x : ScoredPaper) : List ScoredPaper → List ScoredPaper
  | [] => [x]
  | y :: ys => if y.relevance_score ≤ x.relevance_score then x :: y :: ys
               else y :: insertDesc x ys

/-- Python sorted(key relevance_score, reverse true): a stable descending
sort by score. -/
def pySortDesc (l : List ScoredPaper) : List ScoredPaper := l.foldr insertDesc []

/-- The fixed categories list of the page: key and candidate limit, in
display order Research, Review, Thesis. -/
def categoriesCfg : List (String × Nat) := [("Research", 30), ("Review", 5), ("Thesis", 5)]

/-- cat_papers of the display loop: the category partition, score sorted. -/
def catPapers (scored : List ScoredPaper) (key : String) : List ScoredPaper :=
  pySortDesc (scored.filter (fun p => p.category = key))

/-- remaining_in_cat: candidates of the category not yet selected. -/
def remainingInCat (scored : List ScoredPaper) (sel : Finset String) (key : String) :
    List ScoredPaper :=
  (catPapers scored key).filter (fun p => p.id ∉ sel)

/-- display_list: the first limit remaining candidates of the category. -/
def displayList (scored : List ScoredPaper) (sel : Finset String) (key : String)
    (limit : Nat) : List ScoredPaper :=
  (remainingInCat scored sel key).take limit

/-- The candidate lists the page presents, one per category, in the fixed
category order. -/
def displayLists (scored : List ScoredPaper) (sel : Finset String) : List (List ScoredPaper) :=
  categoriesCfg.map (fun c => displayList scored sel c.1 c.2)

/-- The checkbox event handler of the candidates column: checking adds the
id when absent; unchecking removes it only when the id was selected at
render time, so unchecking an unselected id changes nothing. -/
def checkboxHandler (sel : Finset String) (pid : String) (checked : Bool) : Finset String :=
  if checked then (if pid ∉ sel then insert pid sel else sel)
  else (if pid ∈ sel then sel.erase pid else sel)

/-! ### PDF downloader (src/pages/4_PDF_Downloader.py)

A strategy run for one document either raises (caught by the executor
loop) or performs a sequence of candidate downloads, each of which either
raises inside download_file (caught there, giving None) or yields an HTTP
response.  download_file accepts a response only when its status is 200
and its body starts with the PDF file header; the full body is then
returned.  The executor loop walks the strategies list in order and
breaks at the first truthy result. -/

/-- An HTTP response as observed by download_file: status code and body. -/
structure HttpResponse where
  status : Nat
  content : List Nat
deriving Repr, DecidableEq

/-- The first bytes checked by content.startswith of download_file: %PDF. -/
def pdfSignature : List Nat := [37, 80, 68, 70]

/-- The signature test of download_file. -/
def hasPdfSignature (b : List Nat) : Bool := pdfSignature.isPrefixOf b

/-- download_file on one fetch: an exception anywhere inside gives None;
otherwise the body is accepted exactly when the status is 200 and the
body starts with the PDF header.  The code re-requests the full file
after the check and returns its content. -/
def download_file (fetch : Except Unit HttpResponse) : Option (List Nat) :=
  match fetch with
  | .error _ => none
  | .ok r => if r.status = 200 ∧ hasPdfSignature r.content then some r.content else none

/-- What one strategy does when invoked on the document: either it raises,
or it attempts the listed downloads in order through download_file. -/
abbrev StrategyBehavior : Type := Except Unit (List (Except Unit HttpResponse))

/-- The loop every strategy body uses around download_file: return the
first accepted download, None when every candidate is rejected. -/
def tryDownloads : List (Except Unit HttpResponse) → Option (List Nat)
  | [] => none
  | f :: fs =>
    match download_file f with
    | some b => some b
    | none => tryDownloads fs

/-- The observable result of invoking one strategy: a raised strategy is
caught by the executor and treated like an empty result. -/
def stratResult (sb : StrategyBehavior) : Option (List Nat) :=
  match sb with
  | .error _ => none
  | .ok fetches => tryDownloads fetches

/-- The executor loop over the strategies list: invoke each strategy in
order, break at the first truthy pdf_content with its strategy name, and
also report how many strategies were invoked. -/
def runChain : List (String × StrategyBehavior) → Option (List Nat × String) × Nat
  | [] => (none, 0)
  | (nm, sb) :: rest =>
    match stratResult sb with
    | some b => (some (b, nm), 1)
    | none =>
      let (res, k) := runChain rest
      (res, k + 1)

/-- The network behavior of a run: what each strategy body would observe
for a given document.  The strategy bodies wrap external services, so
their fetch sequences are parameters of the embedding. -/
structure Net where
  s1 : ScoredPaper → StrategyBehavior
  s2 : ScoredPaper → StrategyBehavior
  s3 : ScoredPaper → StrategyBehavior
  s4 : ScoredPaper → StrategyBehavior
  s5 : ScoredPaper → StrategyBehavior
  s6 : ScoredPaper → StrategyBehavior
  s7 : ScoredPaper → StrategyBehavior
  s8 : ScoredPaper → StrategyBehavior
  s9 : ScoredPaper → StrategyBehavior

/-- The strategies list built at lines 393 to 411 for one paper: the four
fixed leading strategies, Google Scholar only when serp_key is truthy,
then ResearchGate, KrishiKosh Direct and Web Scraping, and Sci-Hub last
only when enabled.  The list does not depend on the category of the
paper. -/
def buildStrategies (net : Net) (serpKey coreKey : String) (useScihub : Bool)
    (paper : ScoredPaper) : List (String × StrategyBehavior) :=
  let _ := coreKey
  ([("Direct Link", net.s1 paper), ("Unpaywall", net.s2 paper),
    ("CORE API", net.s3 paper), ("Semantic Scholar", net.s4 paper)]
   ++ (if serpKey ≠ "" then [("Google Scholar", net.s5 paper)] else [])
   ++ [("ResearchGate", net.s6 paper), ("KrishiKosh Direct", net.s7 paper),
       ("Web Scraping", net.s9 paper)]
   ++ (if useScihub then [("Sci-Hub", net.s8 paper)] else []))

/-! ### Downloader category partition (src/pages/4_PDF_Downloader.py,
lines 338 to 352) -/

/-- selected_papers: the scored papers whose id is in the selection. -/
def selectedPapers (scored : List ScoredPaper) (ids : Finset String) : List ScoredPaper :=
  scored.filter (fun p => p.id ∈ ids)

/-- research_papers of the downloader page. -/
def downloaderResearch (selected : List ScoredPaper) : List ScoredPaper :=
  selected.filter (fun p => p.category = "Research Article")

/-- review_papers of the downloader page. -/
def downloaderReview (selected : List ScoredPaper) : List ScoredPaper :=
  selected.filter (fun p => p.category = "Review Paper")

/-- theses of the downloader page. -/
def downloaderTheses (selected : List ScoredPaper) : List ScoredPaper :=
  selected.filter (fun p => p.category = "Thesis")

/-! ### Spec side definitions

These definitions follow the wording of the specification, not the code;
they exist only to compare the code against the spec and to state
refutations. -/

/-- Whitespace collapsing: runs of whitespace become one space and leading
whitespace is dropped.  The flag records whether the previous kept
character position ended a whitespace run. -/
def collapseAux : Bool → List Char → List Char
  | _, [] => []
  | prev, c :: cs =>
    if c.isWhitespace then
      (if prev then collapseAux true cs else ' ' :: collapseAux true cs)
    else c :: collapseAux false cs

/-- The normalized title of the spec: lowercased and whitespace collapsed. -/
def normalizeTitleSpec (t : String) : String := ⟨collapseAux true (pyLower t).data⟩

/-- First occurrence aggregation in the wording of the spec, over the
flattened lane stream, with the key the code actually uses: the lowered
title.  Each kept candidate is tagged with its lane type; a candidate is
skipped when its lane checks truthiness and the title is empty, or when
its key was already seen. -/
def aggregateSpec (seen : List String) : List (String × Bool × Paper) → List Paper
  | [] => []
  | (tag, chk, p) :: rest =>
    if (chk && p.title == "") || seen.contains (pyLower p.title) then aggregateSpec seen rest
    else { p with type := some tag } :: aggregateSpec (pyLower p.title :: seen) rest

/-- The lane stream of one search run in dispatch order: research lane,
review lane, thesis lane, each with its tag and truthiness flag. -/
def taggedStream (research review thesis : List Paper) : List (String × Bool × Paper) :=
  research.map (fun p => ("Research", true, p)) ++
    review.map (fun p => ("Review", true, p)) ++
    thesis.map (fun p => ("Thesis", false, p))

/-! ### Proof helpers for decimal representations

Nat.repr is injective; this is proved by parsing the digit list back.
These definitions are proof infrastructure only. -/

/-- Numeric value of a decimal digit character. -/
def digVal (c : Char) : Nat := c.toNat - 48

/-- Parse a digit list back to the number, most significant digit first. -/
def parseDigits (l : List Char) : Nat := l.foldl (fun a c => 10 * a + digVal c) 0

/-- A stage 2 model response whose category field, when present, is one
of the three labels the prompt allows. -/
def conformingResp : Except Unit ScoreResp → Bool
  | .error _ => true
  | .ok d => d.category == none || d.category == some "Research" ||
      d.category == some "Review" || d.category == some "Thesis"

/-- One lane iteration viewed over the flattened tagged stream; the
triple carries the lane tag, the truthiness flag and the candidate. -/
def tagStep (st : SearchState) (e : String × Bool × Paper) : SearchState :=
  laneStep e.2.1 e.1 st e.2.2

/-- The whole search run as a single fold over the tagged stream. -/
def processTagged (st : SearchState) (l : List (String × Bool × Paper)) : SearchState :=
  l.foldl tagStep st

/-! ### Concrete fixtures used by refutations and witnesses -/

/-- A network behavior in which every strategy raises; only the names of
the built chain matter where this is used. -/
def trivNet : Net :=
  ⟨fun _ => .error (), fun _ => .error (), fun _ => .error (), fun _ => .error (),
   fun _ => .error (), fun _ => .error (), fun _ => .error (), fun _ => .error (),
   fun _ => .error ()⟩

/-- A document of category Thesis as the downloader receives it. -/
def thesisPaperEx : ScoredPaper :=
  { title := "Weed Management in Rice Thesis",
    link := "http://krishikosh.egranth.ac.in/handle/1/123",
    snippet := none, source := "KrishiKosh Thesis", type := some "Thesis",
    relevance_score := 90, category := "Thesis", id := "0_abc" }

/-- A candidate tagged Research by the research lane. -/
def researchTaggedEx : Paper :=
  ⟨"Impact of mulching on yield", "http://x", none, "Google Scholar", some "Research"⟩

/-- Two search results whose titles differ only in internal whitespace. -/
def cxA : Paper := ⟨"Rice  Blast", "http://a", none, "S1", none⟩

def cxB : Paper := ⟨"Rice Blast", "http://b", none, "S2", none⟩

/-- A sixty candidate pool with distinct titles. -/
def pool60 : List Paper := (List.range 60).map (fun n => ⟨Nat.repr n, "", none, "S", none⟩)

/-- A model response listing every index of the sixty candidate pool. -/
def idx60 : List Int := (List.range 60).map (fun n => (n : Int))

/-- A three strategy chain realizing the retrieval scenario of the spec:
the first strategy downloads bytes that fail the signature check, the
second downloads a valid PDF, the third would also succeed but is never
reached. -/
def chainEx : List (String × StrategyBehavior) :=
  [("Strategy 1", .ok [.ok ⟨200, [1, 2, 3, 4, 5]⟩]),
   ("Strategy 2", .ok [.ok ⟨200, [37, 80, 68, 70, 32, 49]⟩]),
   ("Strategy 3", .ok [.ok ⟨200, [37, 80, 68, 70, 32, 50]⟩])]

/-! ## Theorems -/

/-- C9: Selection mutation through the page handlers is idempotent: the
checkbox add path applied twice gives the same selection set as applied
once, and the uncheck path on an id that is not selected leaves the set
unchanged. -/
theorem c9_selection_idempotent (sel : Finset String) (pid : String) :
    checkboxHandler (checkboxHandler sel pid true) pid true = checkboxHandler sel pid true ∧
    (pid ∉ sel → checkboxHandler sel pid false = sel) := by
  constructor
  · by_cases h : pid ∈ sel
    · simp [checkboxHandler, h]
    · simp [checkboxHandler, h]
  · intro h
    simp [checkboxHandler, h]

/-- Witness for C9 at a concrete selection set and id. -/
theorem c9_witness :
    "b" ∉ ({"a"} : Finset String) ∧ checkboxHandler {"a"} "b" false = {"a"} :=
  ⟨by decide, (c9_selection_idempotent {"a"} "b").2 (by decide)⟩

/-- C2 counterexample: the claim requires a minimum byte length threshold,
but download_file accepts a body of only four bytes, the bare PDF header
itself, which is below any plausible minimum size for a document; no
length check exists in the code. -/
theorem c2_counterexample :
    download_file (.ok ⟨200, [37, 80, 68, 70]⟩) = some [37, 80, 68, 70] ∧
    ([37, 80, 68, 70] : List Nat).length = 4 := by decide

/-- C2 amended: bytes returned by a strategy are accepted exactly when the
HTTP status is 200 and the body starts with the standard PDF header; no
minimum byte length check is performed.  A failing fetch or failing
verification is treated identically to the strategy returning no result,
and the chain proceeds to the next strategy. -/
theorem c2_amended_verification (r : HttpResponse) (b : List Nat) :
    (download_file (.ok r) = some b ↔
      r.status = 200 ∧ hasPdfSignature r.content = true ∧ b = r.content) ∧
    download_file (.error ()) = none ∧
    (∀ (nm : String) (sb : StrategyBehavior) (rest : List (String × StrategyBehavior)),
      stratResult sb = none →
      runChain ((nm, sb) :: rest) = ((runChain rest).1, (runChain rest).2 + 1)) := by
  refine ⟨?_, rfl, ?_⟩
  · by_cases h : r.status = 200 ∧ hasPdfSignature r.content
    · simp only [download_file, if_pos h, Option.some.injEq]
      constructor
      · rintro rfl
        exact ⟨h.1, h.2, rfl⟩
      · rintro ⟨-, -, rfl⟩
        rfl
    · simp only [download_file, if_neg h]
      constructor
      · rintro ⟨⟩
      · rintro ⟨h1, h2, -⟩
        exact absurd ⟨h1, h2⟩ h
  · intro nm sb rest h
    simp [runChain, h]

/-- Witness for C2 at a concrete response and a concrete failing strategy. -/
theorem c2_witness :
    download_file (.ok ⟨200, [37, 80, 68, 70, 1]⟩) = some [37, 80, 68, 70, 1] ∧
    runChain [("Unpaywall", .error ())] = ((runChain []).1, (runChain []).2 + 1) :=
  ⟨((c2_amended_verification ⟨200, [37, 80, 68, 70, 1]⟩ [37, 80, 68, 70, 1]).1).2
      ⟨rfl, by decide, rfl⟩,
   (c2_amended_verification ⟨200, [37, 80, 68, 70, 1]⟩ [37, 80, 68, 70, 1]).2.2
      "Unpaywall" (.error ()) [] (by decide)⟩

/-- C3 counterexample: for a document of category Thesis the built chain
starts with Direct Link and places the thesis specialized KrishiKosh
handler at position five, after five strategies that are not thesis
specialized, so the KrishiKosh handler is not attempted first. -/
theorem c3_counterexample :
    thesisPaperEx.category = "Thesis" ∧
    (buildStrategies trivNet "" "" false thesisPaperEx).map Prod.fst =
      ["Direct Link", "Unpaywall", "CORE API", "Semantic Scholar",
       "ResearchGate", "KrishiKosh Direct", "Web Scraping"] ∧
    ((buildStrategies trivNet "" "" false thesisPaperEx).map Prod.fst).indexOf
      "KrishiKosh Direct" = 5 := by
  refine ⟨rfl, ?_, ?_⟩ <;> rfl

/-- C3 amended: the strategy chain is built identically for every
document; its order is fixed by the configuration flags alone (a truthy
SerpAPI key inserts Google Scholar, the Sci-Hub opt in appends Sci-Hub
last), so no category based promotion of the KrishiKosh handler occurs
and the ordering is the same for Thesis documents as for any others. -/
theorem c3_amended_no_promotion (net : Net) (serpKey coreKey : String) (useScihub : Bool)
    (p q : ScoredPaper) :
    (buildStrategies net serpKey coreKey useScihub p).map Prod.fst =
      (buildStrategies net serpKey coreKey useScihub q).map Prod.fst ∧
    (buildStrategies net serpKey coreKey useScihub p).map Prod.fst =
      ["Direct Link", "Unpaywall", "CORE API", "Semantic Scholar"]
        ++ (if serpKey ≠ "" then ["Google Scholar"] else [])
        ++ ["ResearchGate", "KrishiKosh Direct", "Web Scraping"]
        ++ (if useScihub then ["Sci-Hub"] else []) := by
  by_cases hs : serpKey ≠ "" <;> by_cases hc : useScihub <;>
    simp [buildStrategies, hs, hc]

/-- C7 counterexample: a candidate tagged Research by the research lane is
scored with a model classification of Review, and the emitted category is
Review, not the lane tag Research: the Research lane tag does not take
precedence. -/
theorem c7_counterexample :
    researchTaggedEx.type = some "Research" ∧
    (scoreOne 0 researchTaggedEx (.ok ⟨some 50, some "Review"⟩)).map
      (fun q => q.category) = some "Review" ∧
    "Review" ≠ "Research" := by
  refine ⟨rfl, rfl, by decide⟩

/-- C7 amended: only the lane tags Review and Thesis take precedence over
the per item model classification; a candidate tagged Research, or not
tagged at all, receives the model category, defaulting to Research when
the model omits one. -/
theorem c7_amended_precedence (i : Nat) (p : Paper) (d : ScoreResp) :
    ∃ out, scoreOne i p (.ok d) = some out ∧
      out.category = (if p.type = some "Thesis" then "Thesis"
        else if p.type = some "Review" then "Review"
        else d.category.getD "Research") := by
  refine ⟨_, rfl, ?_⟩
  match hp : p.type with
  | none => simp [hp]
  | some t =>
    by_cases h1 : t = "Thesis"
    · simp [hp, h1]
    · by_cases h2 : t = "Review"
      · simp [hp, h1, h2]
      · simp [hp, h1, h2]

/-- Bytes produced by a successful strategy invocation always carry the
PDF signature, because download_file is the only producer. -/
theorem stratResult_signature {sb : StrategyBehavior} {b : List Nat}
    (h : stratResult sb = some b) : hasPdfSignature b = true := by
  match sb with
  | .error _ => exact absurd h (by simp [stratResult])
  | .ok fetches =>
    simp only [stratResult] at h
    induction fetches with
    | nil => exact absurd h (by simp [tryDownloads])
    | cons f fs ih =>
      rw [tryDownloads] at h
      match hf : download_file f with
      | some c =>
        rw [hf] at h
        cases h
        match f, hf with
        | .ok r, hf =>
          rw [download_file] at hf
          split at hf
          · rename_i hcond
            cases hf
            exact hcond.2
          · cases hf
      | none =>
        rw [hf] at h
        exact ih h

/-- C1: for every document and strategy chain, when every strategy before
position k produces no result and the strategy at position k produces
verified bytes, the executor returns exactly those bytes paired with that
strategy name and invokes only the first k plus one strategies, so no
later strategy runs; the winning bytes carry the PDF signature. -/
theorem c1_short_circuit (chain : List (String × StrategyBehavior)) (k : Nat)
    (nm : String) (sb : StrategyBehavior) (b : List Nat)
    (hget : chain.get? k = some (nm, sb))
    (hfail : ∀ e ∈ chain.take k, stratResult e.2 = none)
    (hsucc : stratResult sb = some b) :
    runChain chain = (some (b, nm), k + 1) ∧ hasPdfSignature b = true := by
  refine ⟨?_, stratResult_signature hsucc⟩
  induction chain generalizing k with
  | nil => cases hget
  | cons hd rest ih =>
    match k with
    | 0 =>
      cases hget
      rw [runChain, hsucc]
    | k + 1 =>
      have hhd : stratResult hd.2 = none := hfail hd (by simp)
      have htl : ∀ e ∈ rest.take k, stratResult e.2 = none := fun e he =>
        hfail e (by simp [List.take_succ_cons]; right; exact he)
      have := ih k hget htl
      rw [runChain]
      match hd with
      | (nm2, sb2) =>
        simp only at hhd
        rw [hhd, this]

/-- Witness for C1: in the three strategy spec scenario the second
strategy wins, its name is reported, and only two strategies are invoked. -/
theorem c1_witness :
    runChain chainEx = (some ([37, 80, 68, 70, 32, 49], "Strategy 2"), 2) ∧
    hasPdfSignature [37, 80, 68, 70, 32, 49] = true :=
  c1_short_circuit chainEx 1 "Strategy 2" (.ok [.ok ⟨200, [37, 80, 68, 70, 32, 49]⟩])
    [37, 80, 68, 70, 32, 49] rfl (by decide) rfl

/-- Every category emitted by a stage 2 iteration over a conforming
response is one of the three labels. -/
theorem scoreOne_category_mem {i : Nat} {p : Paper} {r : Except Unit ScoreResp}
    {q : ScoredPaper} (hr : conformingResp r = true) (h : scoreOne i p r = some q) :
    q.category = "Research" ∨ q.category = "Review" ∨ q.category = "Thesis" := by
  match r with
  | .error _ => cases h
  | .ok d =>
    cases h
    simp only [conformingResp, Bool.or_eq_true, beq_iff_eq] at hr
    have hd : d.category.getD "Research" = "Research" ∨
        d.category.getD "Research" = "Review" ∨
        d.category.getD "Research" = "Thesis" := by
      rcases hr with ((h1 | h1) | h1) | h1 <;> rw [h1] <;> simp
    match hp : p.type with
    | none => simpa using hd
    | some t =>
      by_cases ht : t = "Thesis" ∨ t = "Review"
      · simp only [if_pos ht]
        rcases ht with rfl | rfl
        · right; right; rfl
        · right; left; rfl
      · simpa [if_neg ht] using hd

/-- C10: when the model responses conform to the prompt schema, every
paper emitted by stage 2 has category Research, Review or Thesis, while
the downloader partitions the selected papers by the labels Research
Article and Review Paper; those two partitions are therefore empty for
every selection drawn from stage 2 output, and their displayed counts are
zero. -/
theorem c10_label_mismatch (papers : List Paper) (rs : List (Except Unit ScoreResp))
    (sel : Finset String) (hr : ∀ r ∈ rs, conformingResp r = true) :
    (∀ q ∈ llm_score_stage_2 papers rs,
      q.category = "Research" ∨ q.category = "Review" ∨ q.category = "Thesis") ∧
    downloaderResearch (selectedPapers (llm_score_stage_2 papers rs) sel) = [] ∧
    downloaderReview (selectedPapers (llm_score_stage_2 papers rs) sel) = [] ∧
    (downloaderResearch (selectedPapers (llm_score_stage_2 papers rs) sel)).length = 0 ∧
    (downloaderReview (selectedPapers (llm_score_stage_2 papers rs) sel)).length = 0 := by
  have hmem : ∀ q ∈ llm_score_stage_2 papers rs,
      q.category = "Research" ∨ q.category = "Review" ∨ q.category = "Thesis" := by
    intro q hq
    rw [llm_score_stage_2, List.mem_filterMap] at hq
    obtain ⟨⟨i, p, r⟩, he, hs⟩ := hq
    have hmr : r ∈ rs := by
      have h2 := List.mem_enumFrom he
      have h3 : (p, r) ∈ papers.zip rs := by
        rw [h2.2.2]
        exact List.getElem_mem _
      exact (List.of_mem_zip h3).2
    exact scoreOne_category_mem (hr r hmr) hs
  have hres : downloaderResearch (selectedPapers (llm_score_stage_2 papers rs) sel) = [] := by
    rw [downloaderResearch, List.filter_eq_nil_iff]
    intro q hq
    have hq2 : q ∈ llm_score_stage_2 papers rs := List.mem_of_mem_filter hq
    rcases hmem q hq2 with h | h | h <;> simp [h]
  have hrev : downloaderReview (selectedPapers (llm_score_stage_2 papers rs) sel) = [] := by
    rw [downloaderReview, List.filter_eq_nil_iff]
    intro q hq
    have hq2 : q ∈ llm_score_stage_2 papers rs := List.mem_of_mem_filter hq
    rcases hmem q hq2 with h | h | h <;> simp [h]
  exact ⟨hmem, hres, hrev, by rw [hres]; rfl, by rw [hrev]; rfl⟩

/-- Witness for C10: a concrete one paper pool scored with a conforming
response; both downloader partitions of the selection are empty. -/
theorem c10_witness :
    (∀ r ∈ [Except.ok (⟨some 80, some "Review"⟩ : ScoreResp)], conformingResp r = true) ∧
    downloaderResearch (selectedPapers
      (llm_score_stage_2 [researchTaggedEx] [.ok ⟨some 80, some "Review"⟩]) ∅) = [] ∧
    downloaderReview (selectedPapers
      (llm_score_stage_2 [researchTaggedEx] [.ok ⟨some 80, some "Review"⟩]) ∅) = [] :=
  ⟨by decide,
   (c10_label_mismatch [researchTaggedEx] [.ok ⟨some 80, some "Review"⟩] ∅ (by decide)).2.1,
   (c10_label_mismatch [researchTaggedEx] [.ok ⟨some 80, some "Review"⟩] ∅ (by decide)).2.2.1⟩

/-- Inserting into the sorted list is a permutation of consing. -/
theorem insertDesc_perm (x : ScoredPaper) (l : List ScoredPaper) :
    (insertDesc x l).Perm (x :: l) := by
  induction l with
  | nil => exact List.Perm.refl _
  | cons y ys ih =>
    rw [insertDesc]
    split
    · exact List.Perm.refl _
    · exact (ih.cons y).trans (List.Perm.swap x y ys)

/-- The Python sort is a permutation of its input. -/
theorem pySortDesc_perm (l : List ScoredPaper) : (pySortDesc l).Perm l := by
  induction l with
  | nil => exact List.Perm.refl _
  | cons a l ih =>
    exact (insertDesc_perm a (pySortDesc l)).trans (ih.cons a)

/-- Insertion preserves the descending pairwise order. -/
theorem insertDesc_pairwise {x : ScoredPaper} {l : List ScoredPaper}
    (h : l.Pairwise (fun a b => b.relevance_score ≤ a.relevance_score)) :
    (insertDesc x l).Pairwise (fun a b => b.relevance_score ≤ a.relevance_score) := by
  induction l with
  | nil => exact List.pairwise_singleton _ _
  | cons y ys ih =>
    rw [insertDesc]
    rcases List.pairwise_cons.1 h with ⟨hy, hys⟩
    split
    · rename_i hle
      refine List.pairwise_cons.2 ⟨?_, h⟩
      intro z hz
      rcases List.mem_cons.1 hz with rfl | hz
      · exact hle
      · exact le_trans (hy z hz) hle
    · rename_i hgt
      push_neg at hgt
      refine List.pairwise_cons.2 ⟨?_, ih hys⟩
      intro z hz
      rcases List.mem_cons.1 ((insertDesc_perm x ys).mem_iff.1 hz) with rfl | hz
      · exact le_of_lt hgt
      · exact hy z hz

/-- The Python sort is sorted descending by relevance_score. -/
theorem pySortDesc_pairwise (l : List ScoredPaper) :
    (pySortDesc l).Pairwise (fun a b => b.relevance_score ≤ a.relevance_score) := by
  induction l with
  | nil => exact List.Pairwise.nil
  | cons a l ih => exact insertDesc_pairwise ih

/-- Inserting an element of score s puts it in front of every other score
s element: the elements passed over are strictly larger. -/
theorem insertDesc_filter_pos {x : ScoredPaper} {s : Int} (l : List ScoredPaper)
    (hx : x.relevance_score = s) :
    (insertDesc x l).filter (fun p => p.relevance_score = s) =
      x :: l.filter (fun p => p.relevance_score = s) := by
  induction l with
  | nil => simp [insertDesc, hx]
  | cons y ys ih =>
    rw [insertDesc]
    split
    · simp [hx]
    · rename_i hgt
      push_neg at hgt
      have hy : ¬ y.relevance_score = s := by
        intro hys
        rw [hx] at hgt
        omega
      simp only [List.filter_cons, decide_eq_true_eq, if_neg hy, ih]

/-- Inserting an element of a different score leaves the score s filter
unchanged. -/
theorem insertDesc_filter_neg {x : ScoredPaper} {s : Int} (l : List ScoredPaper)
    (hx : ¬ x.relevance_score = s) :
    (insertDesc x l).filter (fun p => p.relevance_score = s) =
      l.filter (fun p => p.relevance_score = s) := by
  induction l with
  | nil => simp [insertDesc, hx]
  | cons y ys ih =>
    rw [insertDesc]
    split
    · simp [hx]
    · simp only [List.filter_cons, ih]

/-- Stability of the Python sort: for every score the score s elements
appear in the sorted list in their original first seen order. -/
theorem pySortDesc_stable (l : List ScoredPaper) (s : Int) :
    (pySortDesc l).filter (fun p => p.relevance_score = s) =
      l.filter (fun p => p.relevance_score = s) := by
  induction l with
  | nil => rfl
  | cons a l ih =>
    show (insertDesc a (pySortDesc l)).filter _ = _
    by_cases ha : a.relevance_score = s
    · rw [insertDesc_filter_pos _ ha, ih]
      simp [List.filter_cons, ha]
    · rw [insertDesc_filter_neg _ ha, ih]
      simp [List.filter_cons, ha]

/-- C8: with no prior selection the page presents, in the fixed order
Research, Review, Thesis, each category partition sorted descending by
relevance_score and truncated to its quota; the sort is a permutation of
the partition, is descending, and breaks ties by first seen order. -/
theorem c8_selector_shortlist :
    (∀ scored : List ScoredPaper, displayLists scored ∅ =
      [(pySortDesc (scored.filter (fun p => p.category = "Research"))).take 30,
       (pySortDesc (scored.filter (fun p => p.category = "Review"))).take 5,
       (pySortDesc (scored.filter (fun p => p.category = "Thesis"))).take 5]) ∧
    (∀ l : List ScoredPaper, (pySortDesc l).Perm l) ∧
    (∀ l : List ScoredPaper,
      (pySortDesc l).Pairwise (fun a b => b.relevance_score ≤ a.relevance_score)) ∧
    (∀ (l : List ScoredPaper) (s : Int),
      (pySortDesc l).filter (fun p => p.relevance_score = s) =
        l.filter (fun p => p.relevance_score = s)) := by
  refine ⟨?_, pySortDesc_perm, pySortDesc_pairwise, pySortDesc_stable⟩
  intro scored
  simp [displayLists, categoriesCfg, displayList, remainingInCat, catPapers]

/-- Membership in the dedup insertion. -/
theorem mem_insertSortedNoDup {a x : Int} {l : List Int} :
    a ∈ insertSortedNoDup x l ↔ a = x ∨ a ∈ l := by
  induction l with
  | nil => simp [insertSortedNoDup]
  | cons y ys ih =>
    rw [insertSortedNoDup]
    by_cases h1 : x < y
    · simp [h1]
    · rw [if_neg h1]
      by_cases h2 : x = y
      · subst h2
        rw [if_pos rfl]
        simp only [List.mem_cons]
        tauto
      · rw [if_neg h2]
        simp only [List.mem_cons, ih]
        tauto

/-- The dedup insertion preserves strict ascending order. -/
theorem pairwise_insertSortedNoDup {x : Int} {l : List Int}
    (h : l.Pairwise (· < ·)) : (insertSortedNoDup x l).Pairwise (· < ·) := by
  induction l with
  | nil => exact List.pairwise_singleton _ _
  | cons y ys ih =>
    rcases List.pairwise_cons.1 h with ⟨hy, hys⟩
    rw [insertSortedNoDup]
    split
    · rename_i hlt
      refine List.pairwise_cons.2 ⟨?_, h⟩
      intro z hz
      rcases List.mem_cons.1 hz with rfl | hz
      · exact hlt
      · exact lt_trans hlt (hy z hz)
    · split
      · exact h
      · rename_i hnlt hne
        refine List.pairwise_cons.2 ⟨?_, ih hys⟩
        intro z hz
        rcases mem_insertSortedNoDup.1 hz with rfl | hz
        · omega
        · exact hy z hz

/-- sorted(list(set(xs))) is strictly ascending. -/
theorem pairwise_sortedSet (xs : List Int) : (sortedSet xs).Pairwise (· < ·) := by
  have main : ∀ (ys : List Int) (acc : List Int), acc.Pairwise (· < ·) →
      (ys.foldl (fun a x => insertSortedNoDup x a) acc).Pairwise (· < ·) := by
    intro ys
    induction ys with
    | nil => exact fun acc h => h
    | cons y ys ih => exact fun acc h => ih _ (pairwise_insertSortedNoDup h)
  exact main xs [] List.Pairwise.nil

/-- sorted(list(set(xs))) has the same members as xs. -/
theorem mem_sortedSet {a : Int} {xs : List Int} : a ∈ sortedSet xs ↔ a ∈ xs := by
  have main : ∀ (ys : List Int) (acc : List Int),
      (a ∈ ys.foldl (fun a x => insertSortedNoDup x a) acc ↔ a ∈ acc ∨ a ∈ ys) := by
    intro ys
    induction ys with
    | nil => simp
    | cons y ys ih =>
      intro acc
      rw [List.foldl_cons, ih, mem_insertSortedNoDup]
      simp only [List.mem_cons]
      tauto
  rw [sortedSet, main]
  simp

/-- Reading strictly ascending, nonnegative, in bounds positions out of
the pool yields a sublist of the suffix of the pool past k. -/
theorem mapIndex_sublist (is : List Int) (l : List Paper) (k : Nat)
    (hp : is.Pairwise (· < ·)) (hb : ∀ i ∈ is, (k : Int) ≤ i ∧ i < (l.length : Int)) :
    ∃ out, mapIndex l is = some out ∧ out.Sublist (l.drop k) := by
  induction is generalizing k with
  | nil => exact ⟨[], rfl, List.nil_sublist _⟩
  | cons i is ih =>
    rcases List.pairwise_cons.1 hp with ⟨hi, his⟩
    rcases hb i (List.mem_cons_self i is) with ⟨hki, hlen⟩
    have h0 : (0 : Int) ≤ i := le_trans (by omega) hki
    have hlt : i.toNat < l.length := by omega
    have hb2 : ∀ m ∈ is, ((i.toNat + 1 : Nat) : Int) ≤ m ∧ m < (l.length : Int) := by
      intro m hm
      have h1 := hi m hm
      have h2 := (hb m (List.mem_cons_of_mem i hm)).2
      constructor
      · push_cast
        omega
      · exact h2
    rcases ih (i.toNat + 1) his hb2 with ⟨out2, hmap2, hsub2⟩
    refine ⟨l.get ⟨i.toNat, hlt⟩ :: out2, ?_, ?_⟩
    · rw [mapIndex, pyGet, if_pos h0, List.get?_eq_get hlt, hmap2]
    · have h2 : l.get ⟨i.toNat, hlt⟩ :: l.drop (i.toNat + 1) = l.drop i.toNat :=
        List.getElem_cons_drop l i.toNat hlt
      have h3 : (l.drop i.toNat).Sublist (l.drop k) := by
        have hkn : k ≤ i.toNat := by omega
        have := List.drop_sublist (i.toNat - k) (l.drop k)
        rwa [List.drop_drop, Nat.add_sub_cancel' hkn] at this
      have h4 : (l.get ⟨i.toNat, hlt⟩ :: out2).Sublist
          (l.get ⟨i.toNat, hlt⟩ :: l.drop (i.toNat + 1)) :=
        List.Sublist.cons₂ _ hsub2
      rw [h2] at h4
      exact h4.trans h3

/-- C5 amended: stage 1 discards every index at or beyond the pool length
and collapses duplicate indices, so over nonnegative model indices it
returns a duplicate free sublist of the pool, in pool order; its length is
bounded only by the pool length, not by 50, because the 50 item cap is
requested in the prompt but never enforced. -/
theorem c5_amended_stage1 (papers : List Paper) (indices : List Int)
    (hnn : ∀ i ∈ indices, 0 ≤ i) (hnd : papers.Nodup) :
    ∃ out, llm_filter_stage_1 papers indices = some out ∧ out.Sublist papers ∧
      out.Nodup ∧ out.length ≤ papers.length := by
  have hmemf : ∀ i ∈ (sortedSet indices).filter (fun i => i < (papers.length : Int)),
      0 ≤ i ∧ i < (papers.length : Int) := by
    intro i hi
    rcases List.mem_filter.1 hi with ⟨hi1, hi2⟩
    exact ⟨hnn i (mem_sortedSet.1 hi1), by simpa using hi2⟩
  have hpf : ((sortedSet indices).filter (fun i => i < (papers.length : Int))).Pairwise
      (· < ·) := (pairwise_sortedSet indices).filter _
  rcases mapIndex_sublist _ papers 0 hpf
      (fun i hi => ⟨by simpa using (hmemf i hi).1, (hmemf i hi).2⟩)
    with ⟨out, hmap, hsub⟩
  rw [List.drop_zero] at hsub
  refine ⟨out, ?_, hsub, hnd.sublist hsub, hsub.length_le⟩
  rw [llm_filter_stage_1, hmap]

/-- Witness for C5 amended at a concrete pool and index list containing a
duplicate and an out of range index. -/
theorem c5_amended_witness :
    ∃ out, llm_filter_stage_1 pool60 [70, 3, 3, 0] = some out ∧ out.Sublist pool60 ∧
      out.Nodup ∧ out.length ≤ pool60.length :=
  c5_amended_stage1 pool60 [70, 3, 3, 0] (by decide) (by decide)

/-- C5 counterexample: over the sixty candidate pool a model response that
lists all sixty indices makes stage 1 return sixty papers, more than the
fifty item bound the claim asserts. -/
theorem c5_counterexample :
    (llm_filter_stage_1 pool60 idx60).map List.length = some 60 ∧ ¬ (60 ≤ 50) := by
  constructor
  · decide
  · decide

/-- A lane loop is the fold of the tagged steps over its stream. -/
theorem runLane_eq_processTagged (chk : Bool) (tag : String) (st : SearchState)
    (ps : List Paper) :
    runLane chk tag st ps = processTagged st (ps.map (fun p => (tag, chk, p))) := by
  rw [runLane, processTagged, List.foldl_map]
  rfl

/-- The whole search run is one fold over the flattened tagged stream. -/
theorem multiPathSearch_eq_processTagged (research review thesis : List Paper) :
    multiPathSearch research review thesis =
      (processTagged ⟨[], []⟩ (taggedStream research review thesis)).all_results := by
  rw [multiPathSearch, taggedStream, runLane_eq_processTagged, runLane_eq_processTagged,
    runLane_eq_processTagged, processTagged, processTagged, processTagged, processTagged,
    List.foldl_append, List.foldl_append]

/-- The running fold of the lane loops equals the first occurrence
aggregation of the spec, started from the current seen set. -/
theorem processTagged_spec (l : List (String × Bool × Paper)) (st : SearchState) :
    (processTagged st l).all_results = st.all_results ++ aggregateSpec st.seen l := by
  induction l generalizing st with
  | nil => simp [processTagged, aggregateSpec]
  | cons e rest ih =>
    obtain ⟨tag, chk, p⟩ := e
    show (processTagged (tagStep st (tag, chk, p)) rest).all_results = _
    rw [aggregateSpec]
    by_cases h1 : chk && p.title == ""
    · have hstep : tagStep st (tag, chk, p) = st := by
        simp only [tagStep, laneStep, if_pos h1]
      rw [hstep, ih, if_pos (by simp [h1])]
    · by_cases h2 : st.seen.contains (pyLower p.title)
      · have h2m : pyLower p.title ∈ st.seen := by simpa using h2
        have hstep : tagStep st (tag, chk, p) = st := by
          simp only [tagStep, laneStep, if_neg h1, if_pos h2]
        rw [hstep, ih, if_pos (by simp [h1, h2m])]
      · have h2m : pyLower p.title ∉ st.seen := by simpa using h2
        have hstep : tagStep st (tag, chk, p) =
            ⟨st.all_results ++ [{ p with type := some tag }],
             pyLower p.title :: st.seen⟩ := by
          simp only [tagStep, laneStep, if_neg h1, if_neg h2]
        rw [hstep, ih, if_neg (by simp [h1, h2m])]
        simp

/-- The aggregation never repeats a lowered title and never emits one
already seen. -/
theorem aggregateSpec_nodup (l : List (String × Bool × Paper)) (seen : List String) :
    ((aggregateSpec seen l).map (fun p => pyLower p.title)).Nodup ∧
    (∀ q ∈ aggregateSpec seen l, pyLower q.title ∉ seen) := by
  induction l generalizing seen with
  | nil => exact ⟨List.Pairwise.nil, by simp [aggregateSpec]⟩
  | cons e rest ih =>
    obtain ⟨tag, chk, p⟩ := e
    rw [aggregateSpec]
    split
    · exact ih seen
    · rename_i hcond
      rcases ih (pyLower p.title :: seen) with ⟨ihn, ihs⟩
      have hkey : pyLower p.title ∉ seen := by
        intro hmem
        exact hcond (by simp [hmem])
      constructor
      · rw [List.map_cons]
        refine List.Pairwise.cons ?_ ihn
        intro b hb
        rcases List.mem_map.1 hb with ⟨q, hq, rfl⟩
        have := ihs q hq
        simp only [List.mem_cons, not_or] at this
        intro hcontra
        exact this.1 hcontra.symm
      · intro q hq
        rcases List.mem_cons.1 hq with rfl | hq
        · exact hkey
        · have := ihs q hq
          simp only [List.mem_cons, not_or] at this
          exact this.2

/-- C4 counterexample: two candidates whose titles agree after lowering
and whitespace collapsing but differ in raw whitespace are both kept by
the research lane, so the aggregated output does not contain exactly one
candidate per spec normalized title. -/
theorem c4_counterexample :
    normalizeTitleSpec cxA.title = normalizeTitleSpec cxB.title ∧
    (multiPathSearch [cxA, cxB] [] []).map Paper.title = ["Rice  Blast", "Rice Blast"] ∧
    (multiPathSearch [cxA, cxB] [] []).length = 2 := by
  refine ⟨by decide, by decide, by decide⟩

/-- C4 amended: the identity key is the lowercased title only, with no
whitespace collapsing.  With that key the code behaves as the spec says:
the output is the first occurrence aggregation of the lane stream in
dispatch order, each kept candidate tagged with its lane, and no two
output candidates share a lowercased title. -/
theorem c4_amended_dedup (research review thesis : List Paper) :
    multiPathSearch research review thesis =
      aggregateSpec [] (taggedStream research review thesis) ∧
    ((multiPathSearch research review thesis).map (fun p => pyLower p.title)).Nodup := by
  have heq : multiPathSearch research review thesis =
      aggregateSpec [] (taggedStream research review thesis) := by
    rw [multiPathSearch_eq_processTagged, processTagged_spec]
    rfl
  exact ⟨heq, by rw [heq]; exact (aggregateSpec_nodup _ []).1⟩

/-- Digit lists accumulate onto the tail by prepending. -/
theorem toDigitsCore_append (fuel : Nat) : ∀ (n : Nat) (ds : List Char),
    Nat.toDigitsCore 10 fuel n ds = Nat.toDigitsCore 10 fuel n [] ++ ds := by
  induction fuel with
  | zero => intro n ds; rfl
  | succ fuel ih =>
    intro n ds
    by_cases h : n / 10 = 0
    · simp [Nat.toDigitsCore, h]
    · rw [Nat.toDigitsCore]
      simp only [if_neg h]
      rw [ih (n / 10) (Nat.digitChar (n % 10) :: ds),
        Nat.toDigitsCore]
      simp only [if_neg h]
      rw [ih (n / 10) [Nat.digitChar (n % 10)], List.append_assoc]
      rfl

/-- Round trip of one digit through digitChar, for digits below ten. -/
theorem digVal_digitChar : ∀ d : Nat, d < 10 → digVal (Nat.digitChar d) = d := by decide

/-- Digit characters are never an underscore. -/
theorem digitChar_ne_underscore : ∀ d : Nat, d < 10 → Nat.digitChar d ≠ '_' := by decide

/-- Parsing the produced digit list recovers the number. -/
theorem parse_toDigitsCore (fuel : Nat) : ∀ n : Nat, n < 10 ^ fuel →
    parseDigits (Nat.toDigitsCore 10 fuel n []) = n := by
  induction fuel with
  | zero =>
    intro n hn
    interval_cases n
    rfl
  | succ fuel ih =>
    intro n hn
    by_cases h : n / 10 = 0
    · have hn10 : n < 10 := by omega
      rw [Nat.toDigitsCore]
      simp only [if_pos h]
      show 10 * 0 + digVal (Nat.digitChar (n % 10)) = n
      rw [digVal_digitChar _ (Nat.mod_lt n (by norm_num))]
      omega
    · rw [Nat.toDigitsCore]
      simp only [if_neg h]
      rw [toDigitsCore_append]
      have hdiv : n / 10 < 10 ^ fuel := by
        rw [Nat.div_lt_iff_lt_mul (by norm_num)]
        calc n < 10 ^ (fuel + 1) := hn
          _ = 10 ^ fuel * 10 := by ring
      rw [parseDigits, List.foldl_append]
      show 10 * parseDigits (Nat.toDigitsCore 10 fuel (n / 10) []) +
        digVal (Nat.digitChar (n % 10)) = n
      rw [ih _ hdiv, digVal_digitChar _ (Nat.mod_lt n (by norm_num))]
      omega

/-- The digit list never contains an underscore. -/
theorem underscore_not_mem_toDigitsCore (fuel : Nat) : ∀ (n : Nat) (ds : List Char),
    '_' ∉ ds → '_' ∉ Nat.toDigitsCore 10 fuel n ds := by
  induction fuel with
  | zero => intro n ds h; exact h
  | succ fuel ih =>
    intro n ds h
    have hd : Nat.digitChar (n % 10) ≠ '_' :=
      digitChar_ne_underscore _ (Nat.mod_lt n (by norm_num))
    by_cases hz : n / 10 = 0
    · rw [Nat.toDigitsCore]
      simp only [if_pos hz]
      intro hmem
      rcases List.mem_cons.1 hmem with heq | hmem
      · exact hd heq.symm
      · exact h hmem
    · rw [Nat.toDigitsCore]
      simp only [if_neg hz]
      refine ih (n / 10) _ ?_
      intro hmem
      rcases List.mem_cons.1 hmem with heq | hmem
      · exact hd heq.symm
      · exact h hmem

/-- Splitting at the first underscore of underscore free prefixes. -/
theorem splitUnderscore : ∀ (a : List Char), '_' ∉ a → ∀ (b : List Char), '_' ∉ b →
    ∀ (r s : List Char), a ++ '_' :: r = b ++ '_' :: s → a = b ∧ r = s := by
  intro a
  induction a with
  | nil =>
    intro _ b hb r s h
    match b with
    | [] => simpa using h
    | c :: bs =>
      exfalso
      rw [List.nil_append, List.cons_append] at h
      have : c = '_' := (List.cons.injEq _ _ _ _ ▸ h).1.symm
      exact hb (this ▸ List.mem_cons_self c bs)
  | cons c as ih =>
    intro ha b hb r s h
    match b with
    | [] =>
      exfalso
      rw [List.cons_append, List.nil_append] at h
      have : c = '_' := (List.cons.injEq _ _ _ _ ▸ h).1
      exact ha (this ▸ List.mem_cons_self c as)
    | c2 :: bs =>
      rw [List.cons_append, List.cons_append] at h
      have h1 : c = c2 := (List.cons.injEq _ _ _ _ ▸ h).1
      have h2 : as ++ '_' :: r = bs ++ '_' :: s := (List.cons.injEq _ _ _ _ ▸ h).2
      have ha2 : '_' ∉ as := fun hm => ha (List.mem_cons_of_mem c hm)
      have hb2 : '_' ∉ bs := fun hm => hb (List.mem_cons_of_mem c2 hm)
      rcases ih ha2 bs hb2 r s h2 with ⟨hab, hrs⟩
      exact ⟨by rw [h1, hab], hrs⟩

/-- The decimal representation of a natural number is injective. -/
theorem nat_repr_injective {m n : Nat} (h : Nat.repr m = Nat.repr n) : m = n := by
  have hdata : Nat.toDigits 10 m = Nat.toDigits 10 n := congrArg String.data h
  have hm : m < 10 ^ (m + 1) :=
    lt_of_lt_of_le (Nat.lt_pow_self (by norm_num) m)
      (Nat.pow_le_pow_right (by norm_num) (Nat.le_succ m))
  have hn : n < 10 ^ (n + 1) :=
    lt_of_lt_of_le (Nat.lt_pow_self (by norm_num) n)
      (Nat.pow_le_pow_right (by norm_num) (Nat.le_succ n))
  calc m = parseDigits (Nat.toDigits 10 m) := (parse_toDigitsCore (m + 1) m hm).symm
    _ = parseDigits (Nat.toDigits 10 n) := by rw [hdata]
    _ = n := parse_toDigitsCore (n + 1) n hn

/-- The decimal representation contains no underscore. -/
theorem underscore_not_mem_repr (n : Nat) : '_' ∉ (Nat.repr n).data :=
  underscore_not_mem_toDigitsCore (n + 1) n [] (by simp)

/-- The stage 2 id determines the loop index: ids formed at different
indices are always different, whatever the hashed titles are. -/
theorem stage2Id_index_inj {i j : Nat} {t u : String}
    (h : stage2Id i t = stage2Id j u) : i = j := by
  have hdata := congrArg String.data h
  simp only [stage2Id, String.data_append, List.append_assoc] at hdata
  have hsplit := splitUnderscore (Nat.repr i).data (underscore_not_mem_repr i)
    (Nat.repr j).data (underscore_not_mem_repr j)
    (generate_paper_id t).data (generate_paper_id u).data (by simpa using hdata)
  exact nat_repr_injective (String.ext hsplit.1)

/-- The id of a successfully scored paper is the stage 2 id of its loop
index and title. -/
theorem scoreOne_id {i : Nat} {p : Paper} {r : Except Unit ScoreResp} {out : ScoredPaper}
    (h : scoreOne i p r = some out) : out.id = stage2Id i p.title := by
  match r with
  | .error _ => cases h
  | .ok d =>
    cases h
    rfl

/-- Enumeration indices are strictly increasing. -/
theorem pairwise_enumFrom {α : Type} (l : List α) : ∀ n : Nat,
    (l.enumFrom n).Pairwise (fun a b => a.1 < b.1) := by
  induction l with
  | nil => intro n; exact List.Pairwise.nil
  | cons x xs ih =>
    intro n
    rw [List.enumFrom_cons]
    refine List.Pairwise.cons ?_ (ih (n + 1))
    intro b hb
    have := (List.mem_enumFrom hb).1
    omega

/-- C6 amended: the stable id is a deterministic function of the title
and the enumeration position, so the same title at the same position in
two runs gets the same id, but the same title at a different position
gets a different id; ids formed at distinct positions never collide
because the position prefixes the id, hence within one scored pool all
ids are unique; and a re-render only filters, reorders and truncates the
stored pool, so displayed papers keep exactly the ids assigned at
scoring time. -/
theorem c6_stable_id (i j : Nat) (t : String) (papers : List Paper)
    (rs : List (Except Unit ScoreResp)) :
    (∀ (p q : Paper) (r r2 : Except Unit ScoreResp) (out out2 : ScoredPaper),
      p.title = q.title → scoreOne i p r = some out → scoreOne i q r2 = some out2 →
      out.id = out2.id) ∧
    (i ≠ j → ∀ u : String, stage2Id i t ≠ stage2Id j u) ∧
    ((llm_score_stage_2 papers rs).map (fun q => q.id)).Nodup ∧
    (∀ (scored : List ScoredPaper) (sel : Finset String) (l : List ScoredPaper),
      l ∈ displayLists scored sel → ∀ q ∈ l, q ∈ scored) := by
  refine ⟨?_, ?_, ?_, ?_⟩
  · intro p q r r2 out out2 htitle h1 h2
    rw [scoreOne_id h1, scoreOne_id h2, htitle]
  · intro hij u heq
    exact hij (stage2Id_index_inj heq)
  · rw [llm_score_stage_2, List.map_filterMap]
    refine List.Pairwise.filterMap _ ?_ (pairwise_enumFrom ((papers.zip rs)) 0)
    intro a a2 hlt b hb b2 hb2
    rcases Option.map_eq_some'.1 hb with ⟨o1, ho1, rfl⟩
    rcases Option.map_eq_some'.1 hb2 with ⟨o2, ho2, rfl⟩
    rw [scoreOne_id ho1, scoreOne_id ho2]
    intro hcontra
    exact absurd (stage2Id_index_inj hcontra) (Nat.ne_of_lt hlt)
  · intro scored sel l hl q hq
    rw [displayLists, List.mem_map] at hl
    rcases hl with ⟨c, hc, rfl⟩
    have h1 : q ∈ remainingInCat scored sel c.1 := List.mem_of_mem_take hq
    have h2 : q ∈ catPapers scored c.1 := List.mem_of_mem_filter h1
    have h3 : q ∈ scored.filter (fun p => p.category = c.1) :=
      (pySortDesc_perm _).mem_iff.1 h2
    exact List.mem_of_mem_filter h3

/-- C6 counterexample: the same title hashed at two different positions
gets two different stable ids, so the id is not a function of the title
alone and is not stable across runs that shortlist the title at a
different rank. -/
theorem c6_counterexample : stage2Id 0 "Soil Health" ≠ stage2Id 1 "Soil Health" := by
  decide

/-- Witness for C6 at two concrete positions and titles. -/
theorem c6_witness :
    (0 : Nat) ≠ 1 ∧ stage2Id 0 "Soil Health" ≠ stage2Id 1 "Pest Survey" :=
  ⟨by decide, (c6_stable_id 0 1 "Soil Health" [] []).2.1 (by decide) "Pest Survey"⟩

end AgriPipeline
